import Mathlib

/-!
Verification of the Xpose client (repository jmandreoli/XPOSE) against its
natural-language specification.  The JavaScript sources are shallowly embedded:
pure fragments become Lean functions, the DOM/view state becomes explicit state
records, external primitives (the HTTP server answering a request, the ambient
number-to-string rendering of the host language) become function parameters.
JS numbers are modelled exactly: all arithmetic performed by the embedded code
(divisions by powers of two, integer arithmetic on sizes and dates) is exact on
the values the code manipulates, so Nat / Int / Rat are faithful carriers.
-/

namespace Xpose

/-- A chunk POST request sent by the upload loop: the value of the target query
parameter and the request body (the slice of the file, as a byte list). -/
structure ChunkReq where
  target : String
  body : List Nat
deriving DecidableEq

/-- The server result object describing the uploaded file after a chunk
transfer (src/unnamed/part_006, lines 1062-1064): fields name, mtime, size. -/
structure ChunkRes where
  name : String
  mtime : Nat
  size : Nat
deriving DecidableEq

/-- The chunked upload loop of function upload (src/unnamed/part_006, lines
1074-1083).  At position pos the next position is position+chunk, clipped at
the file size (in which case the loop ends); the chunk body is the slice
[pos, nextPosition) of the file; the target of the next request is the name
field of the result object of the current request.  respond abstracts the
server, indexed by the request number.  Returns the list of issued requests
and the result object the returned promise resolves with. -/
def uploadGo (respond : Nat → ChunkReq → ChunkRes) (file : List Nat) (chunk : Nat)
    (hc : 0 < chunk) (target : String) (pos idx : Nat) : List ChunkReq × ChunkRes :=
  if h : pos + chunk < file.length then
    let req : ChunkReq := ⟨target, (file.drop pos).take chunk⟩
    let res := respond idx req
    let rest := uploadGo respond file chunk hc res.name (pos + chunk) (idx + 1)
    (req :: rest.1, rest.2)
  else
    let req : ChunkReq := ⟨target, (file.drop pos).take (file.length - pos)⟩
    ([req], respond idx req)
termination_by file.length - pos
decreasing_by omega

/-- The effective chunk byte count: (x.chunk||1)*0x100000 (src/unnamed/part_006,
line 1066) - a chunk parameter of 0 (JS falsy) defaults to 1 MiB. -/
def chunkBytes (copt : Nat) : Nat := (if copt = 0 then 1 else copt) * 0x100000

/-- The chunked upload function upload (src/unnamed/part_006, lines 1055-1085):
starts the loop at position 0 with the given initial target (JS x.target
defaulted to the empty string when the caller supplies none). -/
def upload (respond : Nat → ChunkReq → ChunkRes) (file : List Nat) (copt : Nat)
    (target : String) : List ChunkReq × ChunkRes :=
  uploadGo respond file (chunkBytes copt) (by unfold chunkBytes; split <;> omega) target 0 0

/-- A concrete server oracle used to exercise the upload theorems: it always
answers with the generated name gen. -/
def respond0 : Nat → ChunkReq → ChunkRes := fun i _ => ⟨"gen", i, 0⟩

/-- A concrete three-byte file used to exercise the upload theorems. -/
def file0 : List Nat := [7, 8, 9]

/-- ECMAScript Number.prototype.toFixed(2) on an exact non-negative rational:
the integer n closest to 100*q (the larger n on a tie) rendered with the last
two digits after a decimal point.  All values the embedded code passes to it
are dyadic rationals below 1024, represented exactly by the JS double. -/
def toFixed2 (q : ℚ) : String :=
  let n : ℕ := (⌊q * 100 + 1 / 2⌋).toNat
  toString (n / 100) ++ "." ++ (if n % 100 < 10 then "0" else "") ++ toString (n % 100)

/-- The unit letters of human_size (src/frontend/utils.js, line 216). -/
def sizeUnits : List String := ["K", "M", "G", "T", "P", "E", "Z"]

/-- The unit loop of human_size (src/frontend/utils.js, lines 219-222): testing
size against the 1024 threshold for each unit in turn, dividing by 1024 after
each failed test; when all units are exhausted the remaining value is rendered
by the ambient JS number-to-string (abstracted as render) with suffix YiB. -/
def humanSizeGo (render : ℚ → String) : List String → ℚ → String
  | [], q => render q ++ "YiB"
  | u :: us, q => if q < 1024 then toFixed2 q ++ u ++ "iB" else humanSizeGo render us (q / 1024)

/-- human_size (src/frontend/utils.js, lines 212-224, identical copy in
src/unnamed/part_006 lines 1087-1099): bytes below the 1024 threshold are
rendered as-is with unit B, otherwise the size is divided by 1024 and fed to
the unit loop.  JS divisions by 1024 are exact on doubles, so ℚ is a faithful
carrier. -/
def human_size (render : ℚ → String) (size : Nat) : String :=
  if (size : ℚ) < 1024 then toString size ++ "B"
  else humanSizeGo render sizeUnits ((size : ℚ) / 1024)

/-- A rename operation {src, trg, is_new} as built by attachView.save
(src/frontend/xpose-attach.js, line 96). -/
structure RenameOp where
  src : String
  trg : String
  is_new : Bool
deriving DecidableEq

/-- The PATCH request body sent by attachView.save (src/frontend/xpose-attach.js,
line 99): the operation batch, the current directory path and the cached
directory-content version. -/
structure SaveReq where
  ops : List RenameOp
  path : String
  version : Nat
deriving DecidableEq

/-- One rendered row of the attachment listing table (attachView.addRow,
src/frontend/xpose-attach.js lines 129-146): the mtime cell text, the size
cell text, whether the name link navigates into a sub-directory (directories)
or downloads the file (regular files), the link target, and the displayed
link label. -/
structure AttachRow where
  mtimeText : String
  sizeText : String
  isDir : Bool
  linkTarget : String
  label : String
deriving DecidableEq

/-- The mutable state of attachView (src/frontend/xpose-attach.js, lines
43-47 and the display/save methods): current directory path, cached
directory-content version, rendered listing rows, the input rows
[name, input value, is_new], and the dirty flag. -/
structure AttachState where
  path : String
  version : Nat
  rows : List AttachRow
  inputs : List (String × String × Bool)
  dirty : Bool
deriving DecidableEq

/-- An attachment listing response: directory-content version plus the ordered
array of [name, mtime, size] triples (size < 0 denoting a directory of -size
items). -/
structure ListingData where
  version : Nat
  content : List (String × String × Int)
deriving DecidableEq

/-- attachView.addRow (src/frontend/xpose-attach.js, lines 129-146): appends a
rendered row and an input row for one [name, mtime, size] triple; new_name is
the original client-side file name for freshly uploaded files (null for rows
coming from a listing).  size < 0 renders an item count and a navigation
link; size >= 0 renders human_size and a download link (into the staging area
.uploaded for a freshly uploaded file).  A fresh upload row sets the dirty
flag. -/
def addRow (render : ℚ → String) (dataUrl : String) (name mtime : String)
    (size : Int) (new_name : Option String) (st : AttachState) : AttachState :=
  let row : AttachRow :=
    if size < 0 then
      ⟨mtime, toString (-size) ++ " item" ++ (if size = -1 then "" else "s"),
        true, st.path ++ "/" ++ name, name⟩
    else
      ⟨mtime, human_size render size.toNat, false,
        dataUrl ++ "/attach/" ++ (if new_name.isSome then ".uploaded" else st.path)
          ++ "/" ++ name,
        if new_name.isSome then "New file" else name⟩
  { st with
    dirty := if new_name.isSome then true else st.dirty,
    rows := st.rows ++ [row],
    inputs := st.inputs ++ [(name, new_name.getD name, new_name.isSome)] }

/-- attachView.display1 (src/frontend/xpose-attach.js, lines 64-72): caches the
response version, clears the dirty flag, sets the path, clears the table and
the input rows, then adds one row per [name, mtime, size] triple in order. -/
def display1 (render : ℚ → String) (dataUrl : String) (path : String)
    (data : ListingData) (st : AttachState) : AttachState :=
  let cleared : AttachState :=
    { st with
      path := path,
      version := data.version,
      dirty := false,
      rows := [],
      inputs := [] }
  data.content.foldl (fun s t => addRow render dataUrl t.1 t.2.1 t.2.2 none s) cleared

/-- JS String.prototype.trim, over the character-list representation: strips
leading and trailing whitespace. -/
def jsTrim (s : String) : String :=
  String.mk (((s.data.dropWhile Char.isWhitespace).reverse.dropWhile
    Char.isWhitespace).reverse)

/-- The operation batch built by attachView.save (src/frontend/xpose-attach.js,
lines 93-97): one {src, trg, is_new} operation for every input row that is a
fresh upload or whose trimmed edited name differs from the original name. -/
def rowOps : List (String × String × Bool) → List RenameOp
  | [] => []
  | r :: rs =>
    let iname := jsTrim r.2.1
    if r.2.2 = true ∨ iname ≠ r.1 then ⟨r.1, iname, r.2.2⟩ :: rowOps rs else rowOps rs

/-- attachView.save (src/frontend/xpose-attach.js, lines 92-103), up to the
response: the request it sends, or none at all when the operation batch is
empty (the noopAlert branch). -/
def save (st : AttachState) : Option SaveReq :=
  if (rowOps st.inputs).isEmpty then none
  else some ⟨rowOps st.inputs, st.path, st.version⟩

/-- The response to a rename batch: the per-operation error report plus, on
success, the new listing (version and content). -/
structure SaveResp where
  errors : List String
  version : Nat
  content : List (String × String × Int)
deriving DecidableEq

/-- The response handling of attachView.save (src/frontend/xpose-attach.js,
lines 101-102, save1 in src/unnamed/part_006 lines 895-898): a non-empty
errors list is raised, leaving the view state untouched; otherwise the
listing is re-displayed from the response. -/
def save1 (render : ℚ → String) (dataUrl : String) (st : AttachState)
    (resp : SaveResp) : AttachState × Option (List String) :=
  if resp.errors.length ≠ 0 then (st, some resp.errors)
  else (display1 render dataUrl st.path ⟨resp.version, resp.content⟩ st, none)

/-- Modelled from the spec: the states of the ReleaseManager shadow/real
two-phase upgrade protocol (spec section 4.4); the server-side implementation
is not part of the source tree, only its client trigger
(manageView.shadow, src/frontend/xpose-manage.js lines 72-76). -/
inductive RMState
  | realActive
  | shadowSyncing
  | shadowActive
  | promoting
deriving DecidableEq

/-- Modelled from the spec: transition labels of the shadow/real protocol -
entering shadow sync, its success or failure, starting a promotion, and
committing it. -/
inductive RMLabel
  | enterShadow
  | syncOk
  | syncFail
  | commitShadow
  | promoteOk
deriving DecidableEq

/-- Modelled from the spec: a configuration of the shadow/real protocol - the
protocol state, the data of the real instance, the data of the shadow, and the
in-flight working copy used while syncing. -/
structure RMSys (σ : Type) where
  state : RMState
  real : σ
  shadow : σ
  work : σ
deriving DecidableEq

/-- Modelled from the spec: the transitions of the ReleaseManager state
machine (spec section 4.4).  Step 1 (enterShadow/syncOk) copies the real
instance data into a working copy, upgrades it, and commits it to the
shadow only; a failure of the upgrade procedures (syncFail) rolls back,
leaving both real and shadow at their prior content.  Step 2
(commitShadow/promoteOk) replaces the data of the real instance with the
upgraded content of the shadow. -/
inductive RMStep {σ : Type} (upgrade : σ → Option σ) :
    RMSys σ → RMLabel → RMSys σ → Prop
  | enterShadow (s : RMSys σ) : s.state = .realActive →
      RMStep upgrade s .enterShadow ⟨.shadowSyncing, s.real, s.shadow, s.real⟩
  | syncOk (s : RMSys σ) (w : σ) : s.state = .shadowSyncing → upgrade s.work = some w →
      RMStep upgrade s .syncOk ⟨.shadowActive, s.real, w, w⟩
  | syncFail (s : RMSys σ) : s.state = .shadowSyncing → upgrade s.work = none →
      RMStep upgrade s .syncFail ⟨.realActive, s.real, s.shadow, s.shadow⟩
  | commitShadow (s : RMSys σ) : s.state = .shadowActive →
      RMStep upgrade s .commitShadow ⟨.promoting, s.real, s.shadow, s.work⟩
  | promoteOk (s : RMSys σ) : s.state = .promoting →
      RMStep upgrade s .promoteOk ⟨.realActive, s.shadow, s.shadow, s.work⟩

/-- The variant cookie update of Xpose.toggle_variant (src/unnamed/part_004,
line 74): a non-empty (truthy) variant goes back to the real instance (empty
value), the real instance goes to shadow. -/
def toggle_variant (v : String) : String := if v ≠ "" then "" else "shadow"

/-- JS String.prototype.startsWith, over the character-list representation. -/
def jsStartsWith (s pre : String) : Bool := pre.data.isPrefixOf s.data

/-- JS String.prototype.substr(n), over the character-list representation. -/
def jsSubstr (s : String) (n : Nat) : String := String.mk (s.data.drop n)

/-- The variant cookie read of the Xpose constructor (src/unnamed/part_004,
line 23): the first cookie row starting with xpose-variant=, defaulted to the
empty string, with the 14-character prefix removed. -/
def readVariant (cookies : List String) : String :=
  jsSubstr ((cookies.find? fun row => jsStartsWith row "xpose-variant=").getD "") 14

/-- JS String.prototype.padStart(2, zero): left-pad with zeros to length 2. -/
def padStart2 (s : String) : String :=
  String.mk (List.replicate (2 - s.length) '0') ++ s

/-- The 12-hour clock value of DetailedEventSource.formatTime
(src/unnamed/part_000, line 135): 1+((h-1)%12+12)%12 where % is the JS
remainder (truncated division, Int.tmod). -/
def jsHour12 (h : Nat) : Int := 1 + (((h : Int) - 1).tmod 12 + 12).tmod 12

/-- DetailedEventSource.formatTime (src/unnamed/part_000, lines 133-136): the
12-hour clock hour, the zero-padded minutes preceded by a colon when non-zero
(JS m? conditional), and the am/pm suffix. -/
def formatTime (h m : Nat) : String :=
  toString (jsHour12 h)
    ++ (if m ≠ 0 then ":" ++ padStart2 (toString m) else "")
    ++ (if h < 12 then "am" else "pm")

/-- A concrete renderer standing for the ambient JS number-to-string, used to
exercise the theorems. -/
def render0 : ℚ → String := fun _ => ""

theorem uploadGo_length (respond : Nat → ChunkReq → ChunkRes) (file : List Nat)
    (chunk : Nat) (hc : 0 < chunk) :
    ∀ n pos idx target, file.length - pos ≤ n →
      (uploadGo respond file chunk hc target pos idx).1.length
        = 1 + (file.length - pos - 1) / chunk := by
  intro n
  induction n with
  | zero =>
    intro pos idx target hn
    rw [uploadGo, dif_neg (by omega)]
    have h0 : file.length - pos - 1 = 0 := by omega
    simp [h0]
  | succ n ih =>
    intro pos idx target hn
    rw [uploadGo]
    by_cases h : pos + chunk < file.length
    · rw [dif_pos h]
      simp only [List.length_cons]
      rw [ih (pos + chunk) (idx + 1) _ (by omega)]
      rw [show file.length - pos - 1 = (file.length - (pos + chunk) - 1) + chunk by omega,
        Nat.add_div_right _ hc]
      omega
    · rw [dif_neg h]
      have hlt : file.length - pos - 1 < chunk := by omega
      simp [Nat.div_eq_of_lt hlt]

theorem uploadGo_bodies (respond : Nat → ChunkReq → ChunkRes) (file : List Nat)
    (chunk : Nat) (hc : 0 < chunk) :
    ∀ n pos idx target, file.length - pos ≤ n →
      ((uploadGo respond file chunk hc target pos idx).1.map (fun r => r.body)).flatten
        = file.drop pos := by
  intro n
  induction n with
  | zero =>
    intro pos idx target hn
    rw [uploadGo, dif_neg (by omega)]
    have hlen : (file.drop pos).length = file.length - pos := List.length_drop pos file
    simp [List.take_of_length_le (le_of_eq hlen)]
  | succ n ih =>
    intro pos idx target hn
    rw [uploadGo]
    by_cases h : pos + chunk < file.length
    · rw [dif_pos h]
      simp only [List.map_cons, List.flatten_cons]
      rw [ih (pos + chunk) (idx + 1) _ (by omega)]
      rw [show file.drop (pos + chunk) = (file.drop pos).drop chunk by
        rw [List.drop_drop, Nat.add_comm]]
      exact List.take_append_drop chunk (file.drop pos)
    · rw [dif_neg h]
      have hlen : (file.drop pos).length = file.length - pos := List.length_drop pos file
      simp [List.take_of_length_le (le_of_eq hlen)]

theorem uploadGo_get_body (respond : Nat → ChunkReq → ChunkRes) (file : List Nat)
    (chunk : Nat) (hc : 0 < chunk) :
    ∀ n pos idx target k, file.length - pos ≤ n →
      k < (uploadGo respond file chunk hc target pos idx).1.length →
      ((uploadGo respond file chunk hc target pos idx).1.getD k ⟨"", []⟩).body
        = (file.drop (pos + k * chunk)).take chunk := by
  intro n
  induction n with
  | zero =>
    intro pos idx target k hn hk
    rw [uploadGo, dif_neg (by omega)] at hk ⊢
    simp only [List.length_singleton] at hk
    have hk0 : k = 0 := by omega
    subst hk0
    have hdrop : file.drop pos = [] := List.drop_eq_nil_of_le (by omega)
    simp [hdrop]
  | succ n ih =>
    intro pos idx target k hn hk
    rw [uploadGo] at hk ⊢
    by_cases h : pos + chunk < file.length
    · rw [dif_pos h] at hk ⊢
      match k with
      | 0 => simp
      | k + 1 =>
        simp only [List.length_cons] at hk
        simp only [List.getD_cons_succ]
        rw [ih (pos + chunk) (idx + 1) _ k (by omega) (by omega)]
        rw [show pos + chunk + k * chunk = pos + (k + 1) * chunk by
          rw [Nat.succ_mul]; omega]
    · rw [dif_neg h] at hk ⊢
      simp only [List.length_singleton] at hk
      have hk0 : k = 0 := by omega
      subst hk0
      have hlen : (file.drop pos).length = file.length - pos := List.length_drop pos file
      have h1 : (file.drop pos).take (file.length - pos) = file.drop pos := by
        exact List.take_of_length_le (le_of_eq hlen)
      have h2 : (file.drop pos).take chunk = file.drop pos := by
        exact List.take_of_length_le (by omega)
      simp [h1, h2]

theorem uploadGo_res (respond : Nat → ChunkReq → ChunkRes) (file : List Nat)
    (chunk : Nat) (hc : 0 < chunk) :
    ∀ n pos idx target, file.length - pos ≤ n →
      (uploadGo respond file chunk hc target pos idx).2
        = respond (idx + ((uploadGo respond file chunk hc target pos idx).1.length - 1))
            ((uploadGo respond file chunk hc target pos idx).1.getD
              ((uploadGo respond file chunk hc target pos idx).1.length - 1) ⟨"", []⟩) := by
  intro n
  induction n with
  | zero =>
    intro pos idx target hn
    rw [uploadGo, dif_neg (by omega)]
    simp
  | succ n ih =>
    intro pos idx target hn
    rw [uploadGo]
    by_cases h : pos + chunk < file.length
    · rw [dif_pos h]
      simp only [List.length_cons]
      have hne : 1 ≤ (uploadGo respond file chunk hc
          (respond idx ⟨target, (file.drop pos).take chunk⟩).name (pos + chunk) (idx + 1)).1.length := by
        rw [uploadGo_length respond file chunk hc (n + 1) (pos + chunk) _ _ (by omega)]
        exact Nat.le_add_right 1 _
      rw [ih (pos + chunk) (idx + 1) _ (by omega)]
      rw [show (uploadGo respond file chunk hc
          (respond idx ⟨target, (file.drop pos).take chunk⟩).name (pos + chunk) (idx + 1)).1.length + 1 - 1
          = ((uploadGo respond file chunk hc
          (respond idx ⟨target, (file.drop pos).take chunk⟩).name (pos + chunk) (idx + 1)).1.length - 1) + 1
        by omega]
      simp only [List.getD_cons_succ]
      congr 1
      omega
    · rw [dif_neg h]
      simp

theorem uploadGo_target_zero (respond : Nat → ChunkReq → ChunkRes) (file : List Nat)
    (chunk : Nat) (hc : 0 < chunk) (target : String) (pos idx : Nat) (d : ChunkReq) :
    ((uploadGo respond file chunk hc target pos idx).1.getD 0 d).target = target := by
  rw [uploadGo]; split <;> simp

theorem uploadGo_chain (respond : Nat → ChunkReq → ChunkRes) (file : List Nat)
    (chunk : Nat) (hc : 0 < chunk) :
    ∀ n pos idx target k, file.length - pos ≤ n →
      k + 1 < (uploadGo respond file chunk hc target pos idx).1.length →
      ((uploadGo respond file chunk hc target pos idx).1.getD (k + 1) ⟨"", []⟩).target
        = (respond (idx + k)
            ((uploadGo respond file chunk hc target pos idx).1.getD k ⟨"", []⟩)).name := by
  intro n
  induction n with
  | zero =>
    intro pos idx target k hn hk
    rw [uploadGo, dif_neg (by omega)] at hk
    simp at hk
  | succ n ih =>
    intro pos idx target k hn hk
    rw [uploadGo] at hk ⊢
    by_cases h : pos + chunk < file.length
    · rw [dif_pos h] at hk ⊢
      match k with
      | 0 =>
        simp only [List.getD_cons_succ, List.getD_cons_zero]
        rw [uploadGo_target_zero]
        simp
      | k + 1 =>
        simp only [List.getD_cons_succ]
        simp only [List.length_cons] at hk
        rw [ih (pos + chunk) (idx + 1)
          (respond idx ⟨target, (file.drop pos).take chunk⟩).name k (by omega) (by omega),
          show idx + 1 + k = idx + (k + 1) from by omega]
    · rw [dif_neg h] at hk
      simp at hk

/-- C1: for a file of S bytes uploaded with chunk parameter c (in MiB), the
upload function issues POST requests whose bodies are the contiguous,
non-overlapping c*2^20-byte slices of the file taken in order from offset 0
(exactly covering the whole file), terminates after ceil(S/(c*2^20)) requests
(1 request when S = 0), and the promise resolves with the result object of the
last response; in particular a 10MiB file with 1MiB chunks takes exactly 10
requests. -/
theorem upload_chunk_cover (respond : Nat → ChunkReq → ChunkRes) (file : List Nat)
    (c : Nat) (hc : 0 < c) (target : String) :
    (upload respond file c target).1.length
        = (if file.length = 0 then 1
           else (file.length + c * 0x100000 - 1) / (c * 0x100000)) ∧
    (∀ k, k < (upload respond file c target).1.length →
      ((upload respond file c target).1.getD k ⟨"", []⟩).body
        = (file.drop (k * (c * 0x100000))).take (c * 0x100000)) ∧
    ((upload respond file c target).1.map (fun r => r.body)).flatten = file ∧
    (upload respond file c target).2
      = respond ((upload respond file c target).1.length - 1)
          ((upload respond file c target).1.getD
            ((upload respond file c target).1.length - 1) ⟨"", []⟩) ∧
    (upload respond (List.replicate (10 * 0x100000) 0) 1 target).1.length = 10 := by
  have hB : chunkBytes c = c * 0x100000 := by unfold chunkBytes; rw [if_neg (by omega)]
  have hBpos : 0 < c * 0x100000 := by positivity
  unfold upload
  refine ⟨?_, ?_, ?_, ?_, ?_⟩
  · rw [uploadGo_length respond file (chunkBytes c) _ file.length 0 0 target (by omega), hB]
    simp only [Nat.sub_zero]
    rcases Nat.eq_zero_or_pos file.length with h0 | h0
    · simp [h0]
    · rw [if_neg (by omega),
        show file.length + c * 0x100000 - 1 = (file.length - 1) + c * 0x100000 by omega,
        Nat.add_div_right _ hBpos]
      omega
  · intro k hk
    rw [uploadGo_get_body respond file (chunkBytes c) _ file.length 0 0 target k (by omega) hk, hB]
    simp
  · rw [uploadGo_bodies respond file (chunkBytes c) _ file.length 0 0 target (by omega)]
    simp
  · rw [uploadGo_res respond file (chunkBytes c) _ file.length 0 0 target (by omega)]
    simp
  · rw [uploadGo_length respond (List.replicate (10 * 0x100000) 0) (chunkBytes 1) _
      (List.replicate (10 * 0x100000) 0).length 0 0 target (by omega)]
    simp only [List.length_replicate]
    norm_num [chunkBytes]

theorem upload_chunk_cover_witness :
    0 < 1 ∧ (upload respond0 file0 1 "").1.length = 1 ∧
      ((upload respond0 file0 1 "").1.map (fun r => r.body)).flatten = file0 := by
  have h := upload_chunk_cover respond0 file0 1 (by decide) ""
  refine ⟨by decide, ?_, h.2.2.1⟩
  rw [h.1]
  norm_num [file0]

/-- C2: when the caller supplies no target name, the first chunk request
carries an empty target query parameter; the target of every later chunk
request equals the name field of the previous response; hence for a server
whose name field is invariable across responses, every chunk after the first
targets that same name. -/
theorem upload_target_chain (respond : Nat → ChunkReq → ChunkRes) (file : List Nat)
    (copt : Nat) :
    (((upload respond file copt "").1.getD 0 ⟨"x", []⟩).target = "") ∧
    (∀ k, k + 1 < (upload respond file copt "").1.length →
      ((upload respond file copt "").1.getD (k + 1) ⟨"", []⟩).target
        = (respond k ((upload respond file copt "").1.getD k ⟨"", []⟩)).name) ∧
    (∀ nm, (∀ i r, (respond i r).name = nm) →
      ∀ k, 0 < k → k < (upload respond file copt "").1.length →
        ((upload respond file copt "").1.getD k ⟨"", []⟩).target = nm) := by
  unfold upload
  refine ⟨uploadGo_target_zero _ _ _ _ _ _ _ _, ?_, ?_⟩
  · intro k hk
    have h := uploadGo_chain respond file (chunkBytes copt) _ file.length 0 0 "" k
      (by omega) hk
    simpa using h
  · intro nm hnm k hk0 hk
    match k, hk0 with
    | k + 1, _ =>
      have h := uploadGo_chain respond file (chunkBytes copt) _ file.length 0 0 "" k
        (by omega) hk
      rw [h]
      exact hnm _ _

theorem upload_target_chain_witness :
    ((upload respond0 (List.replicate (0x100000 + 1) 0) 1 "").1.getD 1 ⟨"", []⟩).target
      = "gen" := by
  have h := upload_target_chain respond0 (List.replicate (0x100000 + 1) 0) 1
  refine h.2.2 "gen" (fun i r => rfl) 1 (by omega) ?_
  show 1 < (upload respond0 (List.replicate (0x100000 + 1) 0) 1 "").1.length
  unfold upload
  rw [uploadGo_length respond0 (List.replicate (0x100000 + 1) 0) (chunkBytes 1) _
    (List.replicate (0x100000 + 1) 0).length 0 0 "" (by omega)]
  simp only [List.length_replicate]
  norm_num [chunkBytes]

/-- C6: a zero-length upload is valid: the upload loop issues exactly one
chunk request, whose body is the empty byte sequence, then terminates and
resolves with the result object of that single response. -/
theorem upload_empty_file (respond : Nat → ChunkReq → ChunkRes) (copt : Nat)
    (target : String) :
    (upload respond [] copt target).1 = [⟨target, []⟩] ∧
    (upload respond [] copt target).2 = respond 0 ⟨target, []⟩ := by
  unfold upload
  rw [uploadGo, dif_neg (by simp)]
  simp

/-- C8: the active variant is read from the xpose-variant cookie alone and
ranges over exactly the two values real (empty string) and shadow;
toggle_variant maps real to shadow and any non-empty variant to real, hence
applying it twice on the two-element variant state restores the original
variant. -/
theorem variant_toggle_involution :
    (∀ v, toggle_variant v = "" ∨ toggle_variant v = "shadow") ∧
    toggle_variant "" = "shadow" ∧
    (∀ v, v ≠ "" → toggle_variant v = "") ∧
    (∀ v, v = "" ∨ v = "shadow" → toggle_variant (toggle_variant v) = v) ∧
    (∀ w, readVariant ["xpose-variant=" ++ w] = w) ∧
    readVariant [] = "" ∧
    readVariant ["other=1", "xpose-variant=shadow"] = "shadow" := by
  refine ⟨?_, by decide, ?_, ?_, ?_, by decide, by decide⟩
  · intro v
    unfold toggle_variant
    by_cases h : v = "" <;> simp [h]
  · intro v h
    unfold toggle_variant
    rw [if_pos h]
  · rintro v (rfl | rfl) <;> decide
  · intro w
    simp [readVariant, jsStartsWith, jsSubstr, String.data_append]

theorem variant_toggle_involution_witness :
    toggle_variant (toggle_variant "shadow") = "shadow" :=
  variant_toggle_involution.2.2.2.1 "shadow" (Or.inr rfl)

theorem jsHour12_eq : ∀ h, h < 24 → jsHour12 h = 1 + (((h : Int) - 1) % 12 + 12) % 12 := by
  decide

/-- C10: for hours 0..23 and minutes 0..59, formatTime renders the 12-hour
clock hour 1+(((h-1) mod 12 + 12) mod 12) - which lies in 1..12 and equals 12
at both h=0 and h=12 - followed by the zero-padded minutes preceded by a
colon exactly when m is non-zero, followed by am exactly when h < 12. -/
theorem formatTime_spec (h m : Nat) (hh : h < 24) (_hm : m < 60) :
    formatTime h m
      = toString (1 + (((h : Int) - 1) % 12 + 12) % 12)
        ++ (if m ≠ 0 then ":" ++ padStart2 (toString m) else "")
        ++ (if h < 12 then "am" else "pm") ∧
    1 ≤ 1 + (((h : Int) - 1) % 12 + 12) % 12 ∧
    1 + (((h : Int) - 1) % 12 + 12) % 12 ≤ 12 ∧
    jsHour12 0 = 12 ∧ jsHour12 12 = 12 := by
  refine ⟨?_, by omega, by omega, by decide, by decide⟩
  unfold formatTime
  rw [jsHour12_eq h hh]

theorem formatTime_spec_witness :
    0 < 24 ∧ 5 < 60 ∧
      formatTime 0 5
        = toString (1 + (((0 : Int) - 1) % 12 + 12) % 12)
          ++ (if 5 ≠ 0 then ":" ++ padStart2 (toString 5) else "")
          ++ (if 0 < 12 then "am" else "pm") :=
  ⟨by decide, by decide, (formatTime_spec 0 5 (by decide) (by decide)).1⟩

/-- C7: in the shadow/real upgrade protocol, a transition changes the real
data of the real instance only when it is the final commit of the promote step
(promoteOk); the enter-shadow transitions (enterShadow, syncOk) and an
upgrade failure during Shadow-Syncing (syncFail) leave the real instance
untouched, the failure also leaving the shadow at its prior content. -/
theorem release_real_only_promote {σ : Type} (upgrade : σ → Option σ)
    (s : RMSys σ) (l : RMLabel) (s' : RMSys σ) (hstep : RMStep upgrade s l s') :
    (l ≠ RMLabel.promoteOk → s'.real = s.real) ∧
    (l = RMLabel.syncFail → s'.real = s.real ∧ s'.shadow = s.shadow) ∧
    (s'.real ≠ s.real → l = RMLabel.promoteOk ∧ s'.real = s.shadow) := by
  cases hstep <;> simp

theorem release_real_only_promote_witness :
    (⟨RMState.realActive, 1, 2, 2⟩ : RMSys Nat).real
        = (⟨RMState.shadowSyncing, 1, 2, 3⟩ : RMSys Nat).real ∧
      (⟨RMState.realActive, 1, 2, 2⟩ : RMSys Nat).shadow
        = (⟨RMState.shadowSyncing, 1, 2, 3⟩ : RMSys Nat).shadow :=
  (release_real_only_promote (fun _ => none) ⟨RMState.shadowSyncing, 1, 2, 3⟩
    RMLabel.syncFail ⟨RMState.realActive, 1, 2, 2⟩
    (RMStep.syncFail ⟨RMState.shadowSyncing, 1, 2, 3⟩ rfl rfl)).2.1 rfl

theorem rowOps_eq (inputs : List (String × String × Bool)) :
    rowOps inputs
      = (inputs.filter fun r => r.2.2 || jsTrim r.2.1 != r.1).map
          fun r => (⟨r.1, jsTrim r.2.1, r.2.2⟩ : RenameOp) := by
  induction inputs with
  | nil => rfl
  | cons r rs ih =>
    by_cases hc : r.2.2 = true ∨ jsTrim r.2.1 ≠ r.1
    · have hb : (r.2.2 || jsTrim r.2.1 != r.1) = true := by
        rcases hc with hx | hx
        · simp [hx]
        · simp [bne_iff_ne, hx]
      simp only [rowOps, List.filter_cons, hb, if_pos hc, if_true, List.map_cons]
      rw [ih]
    · have hb : (r.2.2 || jsTrim r.2.1 != r.1) = false := by
        simp only [not_or, not_not, ne_eq] at hc
        simp [hc.1, bne_iff_ne, hc.2]
      simp only [rowOps, List.filter_cons, hb, if_neg hc]
      rw [ih]
      simp

/-- C3: a saved attachment edit submits a batch holding exactly one
{src, trg, is_new} operation per input row that is a fresh upload or whose
trimmed edited name differs from the original name, together with the current
directory path and the directory-content version cached by the most recent
listing of that path; when the batch is empty no request is sent. -/
theorem attach_save_ops (st : AttachState) :
    (save st = none ↔
      (st.inputs.filter fun r => r.2.2 || jsTrim r.2.1 != r.1) = []) ∧
    (∀ req, save st = some req →
      req.ops
          = ((st.inputs.filter fun r => r.2.2 || jsTrim r.2.1 != r.1).map
              fun r => (⟨r.1, jsTrim r.2.1, r.2.2⟩ : RenameOp)) ∧
        req.path = st.path ∧ req.version = st.version) ∧
    (∀ (render : ℚ → String) (dataUrl p : String) (data : ListingData)
        (st0 : AttachState),
      (display1 render dataUrl p data st0).path = p ∧
      (display1 render dataUrl p data st0).version = data.version) ∧
    (∀ (render : ℚ → String) (dataUrl name mtime : String) (sz : Int)
        (nn : Option String) (st0 : AttachState),
      (addRow render dataUrl name mtime sz nn st0).path = st0.path ∧
      (addRow render dataUrl name mtime sz nn st0).version = st0.version) := by
  refine ⟨?_, ?_, ?_, fun _ _ _ _ _ _ _ => ⟨rfl, rfl⟩⟩
  · unfold save
    split
    · rename_i hemp
      simp only [List.isEmpty_iff] at hemp
      rw [rowOps_eq] at hemp
      simp only [List.map_eq_nil_iff] at hemp
      simp [hemp]
    · rename_i hemp
      simp only [List.isEmpty_iff, rowOps_eq, List.map_eq_nil_iff] at hemp
      simp [hemp]
  · intro req hreq
    unfold save at hreq
    split at hreq
    · cases hreq
    · cases hreq
      exact ⟨rowOps_eq st.inputs, rfl, rfl⟩
  · intro render dataUrl p data st0
    unfold display1
    have hinv : ∀ (content : List (String × String × Int)) (s : AttachState),
        (content.foldl (fun s t => addRow render dataUrl t.1 t.2.1 t.2.2 none s) s).path
            = s.path ∧
          (content.foldl (fun s t => addRow render dataUrl t.1 t.2.1 t.2.2 none s) s).version
            = s.version := by
      intro content
      induction content with
      | nil => intro s; exact ⟨rfl, rfl⟩
      | cons t ts ihc =>
        intro s
        simp only [List.foldl_cons]
        exact ihc (addRow render dataUrl t.1 t.2.1 t.2.2 none s)
    exact hinv data.content _

theorem attach_save_ops_witness :
    save (⟨"p", 5, [], [("a", "b", false)], true⟩ : AttachState)
        = some (⟨[⟨"a", "b", false⟩], "p", 5⟩ : SaveReq) ∧
      (⟨[⟨"a", "b", false⟩], "p", 5⟩ : SaveReq).path = "p" ∧
      (⟨[⟨"a", "b", false⟩], "p", 5⟩ : SaveReq).version = 5 := by
  have hs : save (⟨"p", 5, [], [("a", "b", false)], true⟩ : AttachState)
      = some (⟨[⟨"a", "b", false⟩], "p", 5⟩ : SaveReq) := by decide
  have h := (attach_save_ops (⟨"p", 5, [], [("a", "b", false)], true⟩ : AttachState)).2.1
    (⟨[⟨"a", "b", false⟩], "p", 5⟩ : SaveReq) hs
  exact ⟨hs, h.2.1, h.2.2⟩

/-- C4: a rename-batch response with a non-empty errors list is raised while
the displayed state (path, version, rows, inputs) is left exactly as it was;
only an error-free response re-derives the listing and version from the
response content. -/
theorem attach_save_error_keeps_state (render : ℚ → String) (dataUrl : String)
    (st : AttachState) (resp : SaveResp) :
    (resp.errors ≠ [] →
      save1 render dataUrl st resp = (st, some resp.errors)) ∧
    (resp.errors = [] →
      save1 render dataUrl st resp
        = (display1 render dataUrl st.path ⟨resp.version, resp.content⟩ st, none)) := by
  constructor
  · intro h
    unfold save1
    rw [if_pos (by simpa using h)]
  · intro h
    unfold save1
    rw [if_neg (by simp [h])]

theorem attach_save_error_keeps_state_witness :
    save1 render0 "" (⟨"p", 5, [], [("a", "b", false)], true⟩ : AttachState)
        (⟨["collision"], 9, []⟩ : SaveResp)
      = ((⟨"p", 5, [], [("a", "b", false)], true⟩ : AttachState), some ["collision"]) :=
  (attach_save_error_keeps_state render0 ""
    (⟨"p", 5, [], [("a", "b", false)], true⟩ : AttachState)
    (⟨["collision"], 9, []⟩ : SaveResp)).1 (by decide)

/-- C5: display1 consumes the wire listing - an ordered array of
[name, mtime, size] triples - and renders exactly one row per triple, in
order: a triple with size < 0 becomes a directory row displaying -size
item(s) and a navigation link to path/name, a triple with size >= 0 becomes
a file row displaying the human-readable byte size and a download link; each
row gets an input initialized to the name. -/
theorem attach_listing_render (render : ℚ → String) (dataUrl path : String)
    (data : ListingData) (st : AttachState) :
    display1 render dataUrl path data st
      = { path := path
          version := data.version
          dirty := false
          rows := data.content.map fun t =>
            if t.2.2 < 0 then
              ⟨t.2.1, toString (-t.2.2) ++ " item" ++ (if t.2.2 = -1 then "" else "s"),
                true, path ++ "/" ++ t.1, t.1⟩
            else
              ⟨t.2.1, human_size render t.2.2.toNat, false,
                dataUrl ++ "/attach/" ++ path ++ "/" ++ t.1, t.1⟩
          inputs := data.content.map fun t => (t.1, t.1, false) } := by
  unfold display1
  have hgen : ∀ (content : List (String × String × Int)) (s : AttachState),
      content.foldl (fun s t => addRow render dataUrl t.1 t.2.1 t.2.2 none s) s
        = { s with
            rows := s.rows ++ content.map fun t =>
              if t.2.2 < 0 then
                ⟨t.2.1, toString (-t.2.2) ++ " item" ++ (if t.2.2 = -1 then "" else "s"),
                  true, s.path ++ "/" ++ t.1, t.1⟩
              else
                ⟨t.2.1, human_size render t.2.2.toNat, false,
                  dataUrl ++ "/attach/" ++ s.path ++ "/" ++ t.1, t.1⟩
            inputs := s.inputs ++ content.map fun t => (t.1, t.1, false) } := by
    intro content
    induction content with
    | nil => intro s; simp
    | cons t ts ihc =>
      intro s
      simp only [List.foldl_cons, List.map_cons]
      rw [ihc (addRow render dataUrl t.1 t.2.1 t.2.2 none s)]
      obtain ⟨p, v, rows, inputs, dirty⟩ := s
      simp [addRow]
  rw [hgen]
  simp

theorem div1024_div (q : ℚ) (j : ℕ) : q / 1024 / 1024 ^ j = q / 1024 ^ (j + 1) := by
  rw [div_div, ← pow_succ']

theorem le_div_1024 (size m : ℕ) (h : 1024 ^ (m + 1) ≤ size) :
    (1024 : ℚ) ≤ (size : ℚ) / 1024 ^ m := by
  rw [le_div_iff₀ (by positivity)]
  calc (1024 : ℚ) * 1024 ^ m = 1024 ^ (m + 1) := (pow_succ' 1024 m).symm
    _ ≤ size := by exact_mod_cast h

theorem div_1024_lt (size m : ℕ) (h : size < 1024 ^ (m + 1)) :
    (size : ℚ) / 1024 ^ m < 1024 := by
  rw [div_lt_iff₀ (by positivity)]
  calc (size : ℚ) < 1024 ^ (m + 1) := by exact_mod_cast h
    _ = 1024 * 1024 ^ m := pow_succ' 1024 m

theorem humanSizeGo_spec (render : ℚ → String) :
    ∀ (us : List String) (q : ℚ) (k : ℕ), k < us.length →
      (∀ j, j < k → (1024 : ℚ) ≤ q / 1024 ^ j) → q / 1024 ^ k < 1024 →
      humanSizeGo render us q = toFixed2 (q / 1024 ^ k) ++ us.getD k "" ++ "iB" := by
  intro us
  induction us with
  | nil => intro q k hk; simp at hk
  | cons u us ih =>
    intro q k hk hlow hhi
    match k with
    | 0 =>
      have hq : q < 1024 := by simpa using hhi
      simp only [humanSizeGo, if_pos hq, List.getD_cons_zero]
      rw [pow_zero, div_one]
    | k + 1 =>
      have h0 : (1024 : ℚ) ≤ q := by simpa using hlow 0 (by omega)
      simp only [humanSizeGo, List.getD_cons_succ]
      rw [if_neg (by linarith)]
      rw [ih (q / 1024) k (by simpa using hk) ?_ ?_]
      · rw [div1024_div]
      · intro j hj
        rw [div1024_div]
        exact hlow (j + 1) (by omega)
      · rw [div1024_div]
        exact hhi

theorem humanSizeGo_over (render : ℚ → String) :
    ∀ (us : List String) (q : ℚ),
      (∀ j, j < us.length → (1024 : ℚ) ≤ q / 1024 ^ j) →
      humanSizeGo render us q = render (q / 1024 ^ us.length) ++ "YiB" := by
  intro us
  induction us with
  | nil =>
    intro q _
    simp [humanSizeGo]
  | cons u us ih =>
    intro q hlow
    have h0 : (1024 : ℚ) ≤ q := by simpa using hlow 0 (by simp)
    simp only [humanSizeGo, List.length_cons]
    rw [if_neg (by linarith)]
    rw [ih (q / 1024) ?_]
    · rw [div1024_div]
    · intro j hj
      rw [div1024_div]
      exact hlow (j + 1) (by simpa using hj)

/-- C9: human_size returns size followed by B exactly on the sizes below
1024; for 1024 <= size < 1024^8 it returns size/1024^k rendered by toFixed(2)
(exactly two decimal places) followed by the k-th unit KiB..ZiB, where k -
characterized by 1024^k <= size < 1024^(k+1) - is the least exponent in 1..7
with size/1024^k < 1024; and for size >= 1024^8 it returns the ambient
rendering of size/1024^8 followed by YiB. -/
theorem human_size_spec (render : ℚ → String) (size : ℕ) :
    (size < 1024 → human_size render size = toString size ++ "B") ∧
    (∀ k, 1 ≤ k → k ≤ 7 → 1024 ^ k ≤ size → size < 1024 ^ (k + 1) →
      (human_size render size
          = toFixed2 ((size : ℚ) / 1024 ^ k) ++ sizeUnits.getD (k - 1) "" ++ "iB") ∧
      (size : ℚ) / 1024 ^ k < 1024 ∧
      (∀ j, 1 ≤ j → j < k → ¬ ((size : ℚ) / 1024 ^ j < 1024))) ∧
    (1024 ^ 8 ≤ size → human_size render size = render ((size : ℚ) / 1024 ^ 8) ++ "YiB") := by
  have hlen : sizeUnits.length = 7 := rfl
  refine ⟨?_, ?_, ?_⟩
  · intro h
    unfold human_size
    rw [if_pos (by exact_mod_cast h)]
  · intro k hk1 hk7 hlo hhi
    have hn : (1024 : ℕ) ≤ size := by
      calc (1024 : ℕ) = 1024 ^ 1 := (pow_one 1024).symm
        _ ≤ 1024 ^ k := Nat.pow_le_pow_right (by norm_num) hk1
        _ ≤ size := hlo
    have hq : ¬ ((size : ℚ) < 1024) := by
      rw [not_lt]
      exact_mod_cast hn
    have hkk : k - 1 + 1 = k := by omega
    unfold human_size
    rw [if_neg hq]
    refine ⟨?_, div_1024_lt size k hhi, ?_⟩
    · rw [humanSizeGo_spec render sizeUnits ((size : ℚ) / 1024) (k - 1) (by omega) ?_ ?_]
      · rw [div1024_div, hkk]
      · intro j hj
        rw [div1024_div]
        exact le_div_1024 size (j + 1)
          (le_trans (Nat.pow_le_pow_right (by norm_num) (by omega)) hlo)
      · rw [div1024_div, hkk]
        exact div_1024_lt size k hhi
    · intro j hj1 hjk
      rw [not_lt]
      exact le_div_1024 size j
        (le_trans (Nat.pow_le_pow_right (by norm_num) (by omega)) hlo)
  · intro h8
    have hn : (1024 : ℕ) ≤ size := by
      calc (1024 : ℕ) = 1024 ^ 1 := (pow_one 1024).symm
        _ ≤ 1024 ^ 8 := Nat.pow_le_pow_right (by norm_num) (by norm_num)
        _ ≤ size := h8
    have hq : ¬ ((size : ℚ) < 1024) := by
      rw [not_lt]
      exact_mod_cast hn
    unfold human_size
    rw [if_neg hq]
    rw [humanSizeGo_over render sizeUnits ((size : ℚ) / 1024) ?_]
    · rw [hlen, div1024_div]
    · intro j hj
      rw [hlen] at hj
      rw [div1024_div]
      exact le_div_1024 size (j + 1)
        (le_trans (Nat.pow_le_pow_right (by norm_num) (by omega)) h8)

theorem human_size_spec_witness :
    1 ≤ 1 ∧ (1 : ℕ) ≤ 7 ∧ 1024 ^ 1 ≤ 2048 ∧ 2048 < 1024 ^ (1 + 1) ∧
      human_size render0 2048 = "2.00KiB" := by
  have h := ((human_size_spec render0 2048).2.1 1 (by norm_num) (by norm_num)
    (by norm_num) (by norm_num)).1
  refine ⟨le_refl 1, by norm_num, by norm_num, by norm_num, ?_⟩
  rw [h, show ((2048 : ℕ) : ℚ) / 1024 ^ 1 = 2 by norm_num]
  simp only [toFixed2]
  rw [show (⌊(2 : ℚ) * 100 + 1 / 2⌋ : ℤ) = 200 by norm_num]
  decide

end Xpose
